import Mathlib

/-
Verification development for the DMMminute meeting-minutes pipeline
(src/function.py, src/constants.py, src/app.py).

The Python source is shallowly embedded below:
* texts are `List Char` (Python `str`);
* chunk paths are opaque identifiers (`Nat`), external providers are
  abstracted as functions from a path to a response;
* the encoded byte size of an exported audio segment `audio[s:e]` is
  content dependent in the source (mp3 encoding), so it is abstracted as
  an arbitrary function `encSize : Nat → Nat → Nat` of the range bounds;
* Python float arithmetic on durations is modelled exactly over ℚ-valued
  expressions folded into Nat arithmetic: `int(d * 0.8)` is `d * 4 / 5`
  (equal for every feasible millisecond count, as the double rounding
  error of `d * 0.8` is below half an ulp of the true product), and
  `int((max_chunk_bytes * 0.9) / max(bytes_per_ms, 1e-6))` is evaluated
  as an exact rational and floored;
* the two `while` loops of `split_audio_for_whisper_limit` are written
  with an explicit fuel argument that is provably sufficient: the inner
  loop strictly decreases `end_ms - start_ms` (fuel `end_ms - start_ms`),
  the outer loop strictly increases `start_ms` by at least one
  millisecond per iteration (fuel `len(audio)`).
-/

set_option maxRecDepth 8000

/-! ## Chunk planner: `split_audio_for_whisper_limit` (src/function.py 217-256) -/

/-- Result of `split_audio_for_whisper_limit`.  The source signals the three
outcomes as `(chunk_paths, None)`, `([], "音声が空のため分割できません。")` and
`([], f"チャンク作成に失敗しました: {chunk_index}")`; chunks are identified here by
their planned ranges `(start_ms, end_ms)` instead of their export paths. -/
inductive SplitResult where
  | ok (chunks : List (Nat × Nat))
  | emptyAudio
  | tooLarge (idx : Nat)
deriving DecidableEq

/-- The inner size-correction loop of `split_audio_for_whisper_limit`
(src/function.py 242-245): while the exported segment is larger than
`max_chunk_bytes` and longer than 15 000 ms, shrink it to 80 % of its
duration (`int((end_ms - start_ms) * 0.8)` = `(e - s) * 4 / 5`) and
re-export.  `fuel` bounds the iteration count; `e - s` strictly decreases
each round, so fuel `e - s` is sufficient (see `shrink_range`). -/
def shrink_go (encSize : Nat → Nat → Nat) (maxBytes s : Nat) : Nat → Nat → Nat
  | 0, e => e
  | fuel + 1, e =>
    if maxBytes < encSize s e ∧ 15000 < e - s then
      shrink_go encSize maxBytes s fuel (s + (e - s) * 4 / 5)
    else e

/-- The corrected end of a planned range starting at `s` with provisional
end `e`, after the runtime size-correction loop. -/
def shrink_range (encSize : Nat → Nat → Nat) (maxBytes s e : Nat) : Nat :=
  shrink_go encSize maxBytes s (e - s) e

/-- The outer `while start_ms < len(audio)` loop of
`split_audio_for_whisper_limit` (src/function.py 236-252): cut the range
`[s, min (s + chunkMs) len)`, run the size-correction loop on it, fail
with the chunk index if it is still over the ceiling, otherwise record it
and continue from its end.  `fuel` bounds the iteration count; `s` grows
by at least 1 each round (ranges are nonempty), so fuel `len` suffices for
the initial call at `s = 0`. -/
def split_go (encSize : Nat → Nat → Nat) (maxBytes chunkMs len : Nat) :
    Nat → Nat → Nat → SplitResult
  | 0, _, _ => .ok []
  | fuel + 1, s, idx =>
    if s < len then
      if maxBytes < encSize s (shrink_range encSize maxBytes s (min (s + chunkMs) len)) then
        .tooLarge idx
      else
        match split_go encSize maxBytes chunkMs len fuel
            (shrink_range encSize maxBytes s (min (s + chunkMs) len)) (idx + 1) with
        | .ok rest => .ok ((s, shrink_range encSize maxBytes s (min (s + chunkMs) len)) :: rest)
        | other => other
    else .ok []

/-- `estimated_chunk_ms = int((max_chunk_bytes * 0.9) / max(bytes_per_ms, 1e-6))`
with `bytes_per_ms = source_size / max(len(audio), 1)` (src/function.py
225-226), evaluated exactly: `bytes_per_ms ≥ 1e-6` iff
`sourceSize * 1 000 000 ≥ durationMs` (for `durationMs ≥ 1`). -/
def estimated_chunk_ms (maxChunkBytes sourceSize durationMs : Nat) : Nat :=
  if durationMs ≤ sourceSize * 1000000 then
    (maxChunkBytes * 9 * durationMs) / (10 * sourceSize)
  else
    (maxChunkBytes * 9 * 1000000) / 10

/-- `split_audio_for_whisper_limit(audio_path, output_dir, max_chunk_mb)`
(src/function.py 217-256).  The decoded audio is abstracted by its length
`durationMs = len(audio)`, the on-disk source by `sourceSize =
os.path.getsize(audio_path)`, and the exported size of a cut segment by
`encSize`. -/
def split_audio_for_whisper_limit (encSize : Nat → Nat → Nat)
    (durationMs sourceSize maxChunkMb : Nat) : SplitResult :=
  if durationMs = 0 then .emptyAudio
  else
    split_go encSize (maxChunkMb * 1024 * 1024)
      (max (estimated_chunk_ms (maxChunkMb * 1024 * 1024) sourceSize durationMs) 30000)
      durationMs durationMs 0 0

/-- `Chain s chunks last` says the ranges in `chunks` start exactly at `s`,
are contiguous (each range begins where the previous one ended), have
strictly increasing bounds, and end exactly at `last`.  `Chain 0 chunks d`
is the partition property of a chunk plan for `[0, d)`. -/
inductive Chain : Nat → List (Nat × Nat) → Nat → Prop where
  | nil (n : Nat) : Chain n [] n
  | cons {s e last : Nat} {rest : List (Nat × Nat)} :
      s < e → Chain e rest last → Chain s ((s, e) :: rest) last

/-! ## Vocabulary correction: `apply_word_replacements` (src/function.py 186-199,
src/constants.py 40-44) -/

/-- Worker for `replaceAll`, structurally recursive on a fuel that is kept
at least the remaining text's length (each step consumes at least one
character of the text and one unit of fuel), so the zero-fuel clause is
never reached from `replaceAll` below. -/
def replace_go (p r : List Char) : Nat → List Char → List Char
  | 0, s => s
  | fuel + 1, s =>
    match p, s with
    | [], _ => s
    | _ :: _, [] => []
    | p₀ :: pr, c :: cs =>
      if p₀ = c ∧ pr.isPrefixOf cs then
        r ++ replace_go (p₀ :: pr) r fuel (cs.drop pr.length)
      else
        c :: replace_go (p₀ :: pr) r fuel cs

/-- Python `text.replace(p, r)` for a non-empty pattern `p`: scan left to
right, replace each non-overlapping occurrence of `p` by `r`, and continue
after the replaced text.  (The table below has no empty key, so Python's
special empty-pattern behaviour is never exercised.) -/
def replaceAll (p r s : List Char) : List Char :=
  replace_go p r s.length s

/-- `TRANSCRIPTION_WORD_REPLACEMENTS` (src/constants.py 40-44), in the
insertion order its `dict.items()` iterates in. -/
def TRANSCRIPTION_WORD_REPLACEMENTS : List (List Char × List Char) :=
  [(['配', '客', '状', '況'], ['廃', '却', '状', '況']),
   (['政', '策', '省'], ['製', '作', '所']),
   (['排', '却', '率'], ['廃', '却', '率'])]

/-- `apply_word_replacements(text)` (src/function.py 186-199): apply each
table entry's `text.replace(wrong, correct)` in table order. -/
def apply_word_replacements (text : List Char) : List Char :=
  TRANSCRIPTION_WORD_REPLACEMENTS.foldl (fun t kv => replaceAll kv.1 kv.2 t) text

/-- `p` occurs in `s` starting at position `i`. -/
def matchesAt (p s : List Char) (i : Nat) : Bool :=
  p.isPrefixOf (s.drop i)

/-! ## Transcript assembler: `transcribe_audio_with_whisper` and
`transcribe_single_file` (src/function.py 145-214) -/

/-- `transcribe_single_file(client, audio_path)` (src/function.py 202-214).
The external speech-to-text call is abstracted as `provider`: `.ok raw`
stands for a reply with text `raw`, `.error e` for any exception (network
failure, unreadable file, ...) whose message is `e`.  On success the
vocabulary correction pass runs before returning `(text, None)`; on
failure the result is `(None, str(e))`. -/
def transcribe_single_file (provider : Nat → Except String (List Char)) (p : Nat) :
    Option (List Char) × Option String :=
  match provider p with
  | .ok raw => (some (apply_word_replacements raw), none)
  | .error e => (none, some e)

/-- The loop truthiness test `if not chunk_text` (src/function.py 173):
a chunk result counts as usable only when it is a *non-empty* text. -/
def chunkTruthy : Option (List Char) → Bool
  | some t => !t.isEmpty
  | none => false

/-- The text of a successfully transcribed chunk. -/
def chunkText (provider : Nat → Except String (List Char)) (p : Nat) : List Char :=
  ((transcribe_single_file provider p).1).getD []

/-- The chunk-failure message `f"分割音声の文字起こしに失敗しました: {chunk_error}"`
(src/function.py 175); Python renders `None` as the string `"None"`. -/
def chunkFailMsg : Option String → String
  | some e => "分割音声の文字起こしに失敗しました: " ++ e
  | none => "分割音声の文字起こしに失敗しました: None"

/-- Outcome of the chunk loop (src/function.py 169-176): the collected
per-chunk texts (`none` as soon as any chunk fails), the error message of
the failing chunk, and the number of provider calls made. -/
structure ChunkRun where
  transcripts : Option (List (List Char))
  err : Option String
  providerCalls : Nat

/-- The `for chunk_path in chunk_paths` loop (src/function.py 169-176).
Each iteration calls `transcribe_single_file` twice — line 171 binds the
whole returned pair to `chunk_text` and line 172 immediately rebinds it,
so the first call's result is discarded — hence two provider calls per
chunk (`providerCalls`).  The provider is deterministic here, so the
discarded call returns the same pair as the kept one.  On a falsy
`chunk_text` the loop returns `(None, message)` at once; otherwise the
text is appended and the loop continues. -/
def run_chunk_loop (provider : Nat → Except String (List Char)) :
    List Nat → ChunkRun
  | [] => { transcripts := some [], err := none, providerCalls := 0 }
  | p :: ps =>
    match transcribe_single_file provider p with
    | (some t, _) =>
      if t.isEmpty then
        { transcripts := none, err := some (chunkFailMsg none), providerCalls := 2 }
      else
        { transcripts := (run_chunk_loop provider ps).transcripts.map (fun ts => t :: ts),
          err := (run_chunk_loop provider ps).err,
          providerCalls := 2 + (run_chunk_loop provider ps).providerCalls }
    | (none, ce) =>
      { transcripts := none, err := some (chunkFailMsg ce), providerCalls := 2 }

/-- Python `"\n".join(transcripts)` (src/function.py 178). -/
def joinNewline : List (List Char) → List Char
  | [] => []
  | [t] => t
  | t :: ts => t ++ '\n' :: joinNewline ts

/-- The transcript the chunking path assembles for a given chunk plan
(src/function.py 169-178): the newline-join of the chunk texts, or `none`
when the loop fails. -/
def chunkPathTranscript (provider : Nat → Except String (List Char))
    (paths : List Nat) : Option (List Char) :=
  match (run_chunk_loop provider paths).transcripts with
  | some ts => some (joinNewline ts)
  | none => none

/-- `transcribe_audio_with_whisper(audio_path)` (src/function.py 145-183),
with the credential check abstracted away (a missing key is an early
`(None, msg)` return before any routing).  `fileSizeBytes` is
`os.path.getsize(audio_path)`, `maxFileMb` is `WHISPER_MAX_FILE_MB`, and
`splitResult` is the outcome of `split_audio_for_whisper_limit` (chunk
export paths abstracted as opaque identifiers).  The second component of
the result records whether the chunking path was taken. -/
def transcribe_audio_with_whisper (provider : Nat → Except String (List Char))
    (fileSizeBytes maxFileMb audioPath : Nat)
    (splitResult : Except String (List Nat)) :
    (Option (List Char) × Option String) × Bool :=
  if fileSizeBytes ≤ maxFileMb * 1024 * 1024 then
    (transcribe_single_file provider audioPath, false)
  else
    match splitResult with
    | .error e => ((none, some ("音声分割に失敗しました: " ++ e)), true)
    | .ok chunkPaths =>
      match (run_chunk_loop provider chunkPaths).transcripts with
      | some ts => ((some (joinNewline ts), none), true)
      | none => ((none, (run_chunk_loop provider chunkPaths).err), true)

/-- Provider used by the C4 counterexample: chunk 1 transcribes to the
empty text, chunks 0 and 2 to `"A"` and `"C"`. -/
def provC4 : Nat → Except String (List Char) := fun p =>
  if p = 0 then .ok ['A'] else if p = 1 then .ok [] else .ok ['C']

/-- Provider used by the C5 evaluation: every chunk transcribes to `"A"`. -/
def provC5 : Nat → Except String (List Char) := fun _ => .ok ['A']

/-- Provider used by the C6 counterexample: the file transcribes to the
empty text. -/
def provC6 : Nat → Except String (List Char) := fun _ => .ok []

/-! ## Summary extractor: `summarize_transcription` and
`parse_meeting_basic_info` (src/function.py 308-389, src/constants.py) -/

/-- Python whitespace (`str.strip()` with no argument and the regex class
`\s` over `str`): ASCII whitespace, the C1 separator block, and the
Unicode space characters (NEL, NBSP, OGHAM, the U+2000 block, LINE/PARA
separator, NNBSP, MMSP, and the ideographic space U+3000). -/
def isPyWs (c : Char) : Bool :=
  let n := c.toNat
  n == 0x20 || n == 0x9 || n == 0xA || n == 0xD || n == 0xB || n == 0xC ||
  (Nat.ble 0x1C n && Nat.ble n 0x1F) || n == 0x85 || n == 0xA0 || n == 0x1680 ||
  (Nat.ble 0x2000 n && Nat.ble n 0x200A) || n == 0x2028 || n == 0x2029 ||
  n == 0x202F || n == 0x205F || n == 0x3000

/-- Greedy `\s*`: drop the maximal whitespace run. -/
def dropWs (s : List Char) : List Char := s.dropWhile isPyWs

/-- Python `s.strip()`. -/
def pyStrip (s : List Char) : List Char :=
  ((s.dropWhile isPyWs).reverse.dropWhile isPyWs).reverse

/-- Python `p in s` (substring test). -/
def containsSub (p : List Char) : List Char → Bool
  | [] => p.isEmpty
  | c :: cs => p.isPrefixOf (c :: cs) || containsSub p cs

/-- Worker for `splitOnSub`; fuel bounds the recursion depth as in
`replace_go` (at least the remaining text's length). -/
def splitOn_go (p : List Char) : Nat → List Char → List (List Char)
  | 0, s => [s]
  | fuel + 1, s =>
    match p, s with
    | [], _ => [s]
    | _ :: _, [] => [[]]
    | p₀ :: pr, c :: cs =>
      if p₀ = c ∧ pr.isPrefixOf cs then
        [] :: splitOn_go (p₀ :: pr) fuel (cs.drop pr.length)
      else
        match splitOn_go (p₀ :: pr) fuel cs with
        | [] => [[c]]
        | h :: t₂ => (c :: h) :: t₂

/-- Python `s.split(p)` for a non-empty separator `p`: the parts between
consecutive non-overlapping occurrences of `p`, scanned left to right.
(The section headers used below are never empty, so Python's
`ValueError` on an empty separator is unreachable.) -/
def splitOnSub (p s : List Char) : List (List Char) :=
  splitOn_go p s.length s

/-- Python `s.split(sep)[0]`: the text before the first occurrence of
`sep` (the whole text when `sep` is absent). -/
def pySplitGet0 (sep s : List Char) : List Char := (splitOnSub sep s).headD []

/-- Python `s.split(sep)[1]`: the text between the first and second
occurrence of `sep`.  In the source every such access is guarded by a
`sep in s` test, which guarantees the index exists; the default covers
the unguarded type only. -/
def pySplitGet1 (sep s : List Char) : List Char := (splitOnSub sep s).getD 1 []

/-- Match the literal parts of a label pattern joined by `\s*` (e.g.
`場所\s*/\s*URL`), returning the rest of the text after the last literal.
Greedy `\s*` is deterministic here because no literal starts with a
whitespace character. -/
def matchLiterals : List (List Char) → List Char → Option (List Char)
  | [], s => some s
  | [p], s => if p.isPrefixOf s then some (s.drop p.length) else none
  | p :: ps, s =>
    if p.isPrefixOf s then matchLiterals ps (dropWs (s.drop p.length)) else none

/-- Match `literals\s*[:：]\s*(.+)` at the *start* of `s` and return
group 1, Python `re` semantics: `\s*` is greedy, `.` matches anything but
`'\n'`, and when everything after the colon is whitespace the engine
backtracks inside `\s*` until `.+` can take one non-newline whitespace
character (whose strip is empty — the source discards such captures). -/
def matchLabelValue (parts : List (List Char)) (s : List Char) : Option (List Char) :=
  match matchLiterals parts s with
  | none => none
  | some rest =>
    match dropWs rest with
    | [] => none
    | c :: r₂ =>
      if c = ':' ∨ c = '：' then
        match dropWs r₂ with
        | [] =>
          match r₂.reverse.dropWhile (fun d => d == '\n') with
          | [] => none
          | c' :: _ => some [c']
        | r₃h :: r₃t => some ((r₃h :: r₃t).takeWhile (fun d => d != '\n'))
      else none

/-- Python `re.search`: try the pattern at each position, left to right,
and return the first match's group 1. -/
def reSearchLabel (parts : List (List Char)) : List Char → Option (List Char)
  | [] => matchLabelValue parts []
  | c :: cs =>
    match matchLabelValue parts (c :: cs) with
    | some g => some g
    | none => reSearchLabel parts cs

/-- One field of `parse_meeting_basic_info` (src/function.py 383-388):
`if match and match.group(1).strip(): parsed[key] = match.group(1).strip()`,
else the `"不明"` default. -/
def lookupField (parts : List (List Char)) (text : List Char) : List Char :=
  match reSearchLabel parts text with
  | some g => if (pyStrip g).isEmpty then "不明".toList else pyStrip g
  | none => "不明".toList

/-- A label whose line is missing from `text`, or whose captured value
strips to the empty string — exactly when `lookupField` stays at the
`"不明"` default. -/
def blankMatch (parts : List (List Char)) (text : List Char) : Bool :=
  match reSearchLabel parts text with
  | none => true
  | some g => (pyStrip g).isEmpty

/-- The four labeled-line patterns of `parse_meeting_basic_info`
(src/function.py 376-381). -/
def nameParts : List (List Char) := ["会議名".toList]

def dateParts : List (List Char) := ["日時".toList]

def participantParts : List (List Char) := ["参加者".toList]

def locationParts : List (List Char) := ["場所".toList, "/".toList, "URL".toList]

/-- The four basic-info fields. -/
structure BasicInfo where
  meeting_name : List Char
  meeting_datetime : List Char
  participants : List Char
  location_url : List Char
deriving DecidableEq

/-- `parse_meeting_basic_info(text)` (src/function.py 365-389). -/
def parse_meeting_basic_info (text : List Char) : BasicInfo :=
  if text.isEmpty then
    { meeting_name := "不明".toList, meeting_datetime := "不明".toList,
      participants := "不明".toList, location_url := "不明".toList }
  else
    { meeting_name := lookupField nameParts text,
      meeting_datetime := lookupField dateParts text,
      participants := lookupField participantParts text,
      location_url := lookupField locationParts text }

/-- The section headers of the summary format (src/function.py 344-357). -/
def HDR0 : List Char := "0. 会議基本情報".toList

def HDR1 : List Char := "1. 議題の説明:".toList

def HDR2 : List Char := "2. 主な発言:".toList

def HDR3 : List Char := "3. 決定事項:".toList

/-- The seven summary fields (the source's `summary` dict). -/
structure Summary where
  meeting_name : List Char
  meeting_datetime : List Char
  participants : List Char
  location_url : List Char
  agenda : List Char
  main_points : List Char
  decisions : List Char
deriving DecidableEq

/-- The summary record before any model-derived content: the four
basic-info fields from `parse_meeting_basic_info(meeting_info)` (the
fallback, src/function.py 333-342), text sections empty. -/
def summary_base (meeting_info : List Char) : Summary :=
  { meeting_name := (parse_meeting_basic_info meeting_info).meeting_name,
    meeting_datetime := (parse_meeting_basic_info meeting_info).meeting_datetime,
    participants := (parse_meeting_basic_info meeting_info).participants,
    location_url := (parse_meeting_basic_info meeting_info).location_url,
    agenda := [], main_points := [], decisions := [] }

/-- The conditional overwrite of the four basic-info fields from the
model reply's "0." section (src/function.py 344-350). -/
def summary_s1 (meeting_info summary_text : List Char) : Summary :=
  if containsSub HDR0 summary_text && containsSub HDR1 summary_text then
    { summary_base meeting_info with
      meeting_name := (parse_meeting_basic_info
        (pyStrip (pySplitGet0 HDR1 (pySplitGet1 HDR0 summary_text)))).meeting_name,
      meeting_datetime := (parse_meeting_basic_info
        (pyStrip (pySplitGet0 HDR1 (pySplitGet1 HDR0 summary_text)))).meeting_datetime,
      participants := (parse_meeting_basic_info
        (pyStrip (pySplitGet0 HDR1 (pySplitGet1 HDR0 summary_text)))).participants,
      location_url := (parse_meeting_basic_info
        (pyStrip (pySplitGet0 HDR1 (pySplitGet1 HDR0 summary_text)))).location_url }
  else summary_base meeting_info

/-- The agenda slice (src/function.py 352-353). -/
def summary_s2 (meeting_info summary_text : List Char) : Summary :=
  if containsSub HDR1 summary_text then
    { summary_s1 meeting_info summary_text with
      agenda := pyStrip (pySplitGet0 HDR2 (pySplitGet1 HDR1 summary_text)) }
  else summary_s1 meeting_info summary_text

/-- The main-points slice (src/function.py 354-355). -/
def summary_s3 (meeting_info summary_text : List Char) : Summary :=
  if containsSub HDR2 summary_text then
    { summary_s2 meeting_info summary_text with
      main_points := pyStrip (pySplitGet0 HDR3 (pySplitGet1 HDR2 summary_text)) }
  else summary_s2 meeting_info summary_text

/-- The parsing part of `summarize_transcription` (src/function.py
333-357): fallback basic info from the user-supplied meeting metadata,
the conditional overwrite from the model reply's "0." section, then the
three sliced sections, ending with the decisions slice (lines 356-357). -/
def build_summary (meeting_info summary_text : List Char) : Summary :=
  if containsSub HDR3 summary_text then
    { summary_s3 meeting_info summary_text with
      decisions := pyStrip (pySplitGet1 HDR3 summary_text) }
  else summary_s3 meeting_info summary_text

/-- `summarize_transcription(transcription, meeting_info, reference_text)`
(src/function.py 308-362) with the model call abstracted: `summary_text`
is the model reply (`response.choices[0].message.content`); a falsy reply
returns `None` (line 330-331), otherwise the parsed summary record. -/
def summarize_transcription (meeting_info summary_text : List Char) : Option Summary :=
  if summary_text.isEmpty then none
  else some (build_summary meeting_info summary_text)

/-! ### Planner lemmas -/

theorem shrink_go_le (encSize : Nat → Nat → Nat) (maxBytes s : Nat) :
    ∀ fuel e, s ≤ e → shrink_go encSize maxBytes s fuel e ≤ e := by
  intro fuel
  induction fuel with
  | zero => intro e _; simp [shrink_go]
  | succ fuel ih =>
    intro e hse
    rw [shrink_go]
    split
    · rename_i h
      have hstep : s + (e - s) * 4 / 5 ≤ e := by
        have : (e - s) * 4 / 5 ≤ e - s := Nat.div_le_of_le_mul (by omega)
        omega
      exact le_trans (ih _ (by omega)) hstep
    · exact le_rfl

theorem shrink_go_gt (encSize : Nat → Nat → Nat) (maxBytes s : Nat) :
    ∀ fuel e, s < e → s < shrink_go encSize maxBytes s fuel e := by
  intro fuel
  induction fuel with
  | zero => intro e h; simpa [shrink_go] using h
  | succ fuel ih =>
    intro e hse
    rw [shrink_go]
    split
    · rename_i h
      apply ih
      have : 15000 < e - s := h.2
      have : 12000 ≤ (e - s) * 4 / 5 := by
        have := Nat.div_le_div_right (c := 5) (Nat.mul_le_mul_right 4 (show 15001 ≤ e - s by omega))
        calc 12000 = 15001 * 4 / 5 := by norm_num
          _ ≤ (e - s) * 4 / 5 := this
      omega
    · exact hse

theorem shrink_go_stop (encSize : Nat → Nat → Nat) (maxBytes s : Nat) :
    ∀ fuel e, e - s ≤ fuel →
      encSize s (shrink_go encSize maxBytes s fuel e) ≤ maxBytes ∨
      shrink_go encSize maxBytes s fuel e - s ≤ 15000 := by
  intro fuel
  induction fuel with
  | zero =>
    intro e hf
    right
    simp only [shrink_go]
    omega
  | succ fuel ih =>
    intro e hf
    rw [shrink_go]
    split
    · rename_i h
      apply ih
      have h15 : 15000 < e - s := h.2
      have hlt : (e - s) * 4 / 5 < e - s := by
        rw [Nat.div_lt_iff_lt_mul (by norm_num)]
        omega
      have : s + (e - s) * 4 / 5 - s = (e - s) * 4 / 5 := by omega
      omega
    · rename_i h
      rcases Decidable.not_and_iff_or_not.mp h with h1 | h2
      · left; omega
      · right; omega

theorem shrink_range_le (encSize : Nat → Nat → Nat) (maxBytes s e : Nat) (h : s ≤ e) :
    shrink_range encSize maxBytes s e ≤ e :=
  shrink_go_le encSize maxBytes s (e - s) e h

theorem shrink_range_gt (encSize : Nat → Nat → Nat) (maxBytes s e : Nat) (h : s < e) :
    s < shrink_range encSize maxBytes s e :=
  shrink_go_gt encSize maxBytes s (e - s) e h

theorem shrink_range_stop (encSize : Nat → Nat → Nat) (maxBytes s e : Nat) :
    encSize s (shrink_range encSize maxBytes s e) ≤ maxBytes ∨
    shrink_range encSize maxBytes s e - s ≤ 15000 :=
  shrink_go_stop encSize maxBytes s (e - s) e le_rfl

theorem split_go_chain (encSize : Nat → Nat → Nat) (maxBytes chunkMs len : Nat)
    (hc : 0 < chunkMs) :
    ∀ fuel s idx chunks, len - s ≤ fuel → s ≤ len →
      split_go encSize maxBytes chunkMs len fuel s idx = .ok chunks →
      Chain s chunks len := by
  intro fuel
  induction fuel with
  | zero =>
    intro s idx chunks hf hs hok
    have hs' : s = len := by omega
    simp only [split_go, SplitResult.ok.injEq] at hok
    subst hok
    rw [← hs']
    exact Chain.nil s
  | succ fuel ih =>
    intro s idx chunks hf hs hok
    rw [split_go] at hok
    by_cases hlt : s < len
    · rw [if_pos hlt] at hok
      have he0 : s < min (s + chunkMs) len := lt_min (by omega) hlt
      have hse : s < shrink_range encSize maxBytes s (min (s + chunkMs) len) :=
        shrink_range_gt encSize maxBytes s _ he0
      have hel : shrink_range encSize maxBytes s (min (s + chunkMs) len) ≤ len :=
        le_trans (shrink_range_le encSize maxBytes s _ (le_of_lt he0)) (min_le_right _ _)
      by_cases hsz :
          maxBytes < encSize s (shrink_range encSize maxBytes s (min (s + chunkMs) len))
      · rw [if_pos hsz] at hok
        exact absurd hok (by simp)
      · rw [if_neg hsz] at hok
        rcases hrec : split_go encSize maxBytes chunkMs len fuel
            (shrink_range encSize maxBytes s (min (s + chunkMs) len)) (idx + 1) with
          rest | _ | i
        · rw [hrec] at hok
          simp only [SplitResult.ok.injEq] at hok
          subst hok
          exact Chain.cons hse (ih _ _ _ (by omega) hel hrec)
        · rw [hrec] at hok; exact absurd hok (by simp)
        · rw [hrec] at hok; exact absurd hok (by simp)
    · rw [if_neg hlt] at hok
      simp only [SplitResult.ok.injEq] at hok
      subst hok
      have hs' : s = len := by omega
      rw [← hs']
      exact Chain.nil s

theorem split_go_sizes (encSize : Nat → Nat → Nat) (maxBytes chunkMs len : Nat) :
    ∀ fuel s idx chunks,
      split_go encSize maxBytes chunkMs len fuel s idx = .ok chunks →
      ∀ c ∈ chunks, encSize c.1 c.2 ≤ maxBytes := by
  intro fuel
  induction fuel with
  | zero =>
    intro s idx chunks hok c hc
    simp only [split_go, SplitResult.ok.injEq] at hok
    subst hok
    simp at hc
  | succ fuel ih =>
    intro s idx chunks hok c hc
    rw [split_go] at hok
    by_cases hlt : s < len
    · rw [if_pos hlt] at hok
      by_cases hsz :
          maxBytes < encSize s (shrink_range encSize maxBytes s (min (s + chunkMs) len))
      · rw [if_pos hsz] at hok; exact absurd hok (by simp)
      · rw [if_neg hsz] at hok
        rcases hrec : split_go encSize maxBytes chunkMs len fuel
            (shrink_range encSize maxBytes s (min (s + chunkMs) len)) (idx + 1) with
          rest | _ | i
        · rw [hrec] at hok
          simp only [SplitResult.ok.injEq] at hok
          subst hok
          rcases List.mem_cons.mp hc with hc1 | hc2
          · subst hc1; simpa using Nat.le_of_not_lt hsz
          · exact ih _ _ _ hrec c hc2
        · rw [hrec] at hok; exact absurd hok (by simp)
        · rw [hrec] at hok; exact absurd hok (by simp)
    · rw [if_neg hlt] at hok
      simp only [SplitResult.ok.injEq] at hok
      subst hok
      simp at hc

theorem split_go_err (encSize : Nat → Nat → Nat) (maxBytes chunkMs len : Nat)
    (hc : 0 < chunkMs) :
    ∀ fuel s idx i, s ≤ len →
      split_go encSize maxBytes chunkMs len fuel s idx = .tooLarge i →
      ∃ a b, a < b ∧ b - a ≤ 15000 ∧ maxBytes < encSize a b := by
  intro fuel
  induction fuel with
  | zero => intro s idx i _ hok; exact absurd hok (by simp [split_go])
  | succ fuel ih =>
    intro s idx i hs hok
    rw [split_go] at hok
    by_cases hlt : s < len
    · rw [if_pos hlt] at hok
      have he0 : s < min (s + chunkMs) len := lt_min (by omega) hlt
      have hse : s < shrink_range encSize maxBytes s (min (s + chunkMs) len) :=
        shrink_range_gt encSize maxBytes s _ he0
      have hel : shrink_range encSize maxBytes s (min (s + chunkMs) len) ≤ len :=
        le_trans (shrink_range_le encSize maxBytes s _ (le_of_lt he0)) (min_le_right _ _)
      by_cases hsz :
          maxBytes < encSize s (shrink_range encSize maxBytes s (min (s + chunkMs) len))
      · refine ⟨s, shrink_range encSize maxBytes s (min (s + chunkMs) len), hse, ?_, hsz⟩
        rcases shrink_range_stop encSize maxBytes s (min (s + chunkMs) len) with h1 | h2
        · omega
        · exact h2
      · rw [if_neg hsz] at hok
        rcases hrec : split_go encSize maxBytes chunkMs len fuel
            (shrink_range encSize maxBytes s (min (s + chunkMs) len)) (idx + 1) with
          rest | _ | j
        · rw [hrec] at hok; exact absurd hok (by simp)
        · rw [hrec] at hok; exact absurd hok (by simp)
        · exact ih _ _ _ hel hrec
    · rw [if_neg hlt] at hok
      exact absurd hok (by simp)

/-! ### Claims C1 and C2 -/

/-- C1: for every audio source with `duration_ms > 0` and every positive
ceiling, a chunk plan returned by `split_audio_for_whisper_limit`
partitions `[0, duration_ms)` exactly: the first range starts at 0, the
ranges are contiguous with no gaps and no overlaps, the bounds are
strictly increasing, and the last range ends exactly at the source
duration — also when the runtime size-correction loop shrinks a range. -/
theorem C1_chunk_plan_partitions (encSize : Nat → Nat → Nat)
    (durationMs sourceSize maxChunkMb : Nat) (chunks : List (Nat × Nat))
    (hd : 0 < durationMs) (hm : 0 < maxChunkMb)
    (hok : split_audio_for_whisper_limit encSize durationMs sourceSize maxChunkMb
      = .ok chunks) :
    chunks ≠ [] ∧ Chain 0 chunks durationMs := by
  rw [split_audio_for_whisper_limit, if_neg (by omega)] at hok
  have hc :
      0 < max (estimated_chunk_ms (maxChunkMb * 1024 * 1024) sourceSize durationMs) 30000 :=
    lt_of_lt_of_le (by norm_num) (le_max_right _ _)
  have hchain := split_go_chain encSize (maxChunkMb * 1024 * 1024) _ durationMs hc
      durationMs 0 0 chunks (by omega) (by omega) hok
  refine ⟨?_, hchain⟩
  intro hnil
  subst hnil
  cases hchain
  omega

/-- Witness for C1 at a concrete input whose first two ranges are shrunk by
the runtime size-correction loop (`encSize` 40 bytes/ms, 1 MB ceiling). -/
theorem C1_witness :
    [(0, 25165), (25165, 50330), (50330, 60000)] ≠ ([] : List (Nat × Nat)) ∧
    Chain 0 [(0, 25165), (25165, 50330), (50330, 60000)] 60000 :=
  C1_chunk_plan_partitions (fun s e => (e - s) * 40) 60000 1800000 1
    [(0, 25165), (25165, 50330), (50330, 60000)] (by decide) (by decide) (by decide)

/-- C2: every chunk of a plan returned by `split_audio_for_whisper_limit`
has final encoded size at most the byte ceiling `max_chunk_mb * 1024 *
1024`; and when the function fails with the chunk-too-large outcome (the
source's `"チャンク作成に失敗しました: {chunk_index}"` with no chunk list), some
range that the shrink loop could not reduce further (duration at most the
15 000 ms minimum) still exceeds the ceiling. -/
theorem C2_chunk_size_respected (encSize : Nat → Nat → Nat)
    (durationMs sourceSize maxChunkMb : Nat)
    (hd : 0 < durationMs) (hm : 0 < maxChunkMb) :
    (∀ chunks,
       split_audio_for_whisper_limit encSize durationMs sourceSize maxChunkMb = .ok chunks →
       ∀ c ∈ chunks, encSize c.1 c.2 ≤ maxChunkMb * 1024 * 1024) ∧
    (∀ idx,
       split_audio_for_whisper_limit encSize durationMs sourceSize maxChunkMb
           = .tooLarge idx →
       ∃ a b, a < b ∧ b - a ≤ 15000 ∧ maxChunkMb * 1024 * 1024 < encSize a b) := by
  constructor
  · intro chunks hok
    rw [split_audio_for_whisper_limit, if_neg (by omega)] at hok
    exact split_go_sizes _ _ _ _ _ _ _ _ hok
  · intro idx hok
    rw [split_audio_for_whisper_limit, if_neg (by omega)] at hok
    exact split_go_err _ _ _ _ (lt_of_lt_of_le (by norm_num) (le_max_right _ _)) _ _ _ _
      (by omega) hok

/-- Witness for C2 at a concrete input (1 byte/ms source, 1 MB ceiling,
single-chunk plan `[(0, 60000)]`). -/
theorem C2_witness :
    (fun s e => e - s : Nat → Nat → Nat) 0 60000 ≤ 1 * 1024 * 1024 :=
  (C2_chunk_size_respected (fun s e => e - s) 60000 60000 1 (by decide) (by decide)).1
    [(0, 60000)] (by decide) (0, 60000) (by decide)

/-! ### Assembler lemmas -/

theorem run_chunk_loop_fail (provider : Nat → Except String (List Char)) :
    ∀ (paths : List Nat) (p : Nat), p ∈ paths →
      (transcribe_single_file provider p).1 = none →
      (run_chunk_loop provider paths).transcripts = none ∧
      ((run_chunk_loop provider paths).err).isSome = true := by
  intro paths
  induction paths with
  | nil => intro p hp; simp at hp
  | cons q qs ih =>
    intro p hp hfail
    rcases hq : transcribe_single_file provider q with ⟨ct, ce⟩
    rcases List.mem_cons.mp hp with rfl | hmem
    · rw [hq] at hfail
      simp only at hfail
      subst hfail
      simp [run_chunk_loop, hq]
    · cases ct with
      | none => simp [run_chunk_loop, hq]
      | some t =>
        by_cases ht : t.isEmpty
        · simp [run_chunk_loop, hq, ht]
        · have := ih p hmem hfail
          simp [run_chunk_loop, hq, ht, this.1, this.2]

theorem run_chunk_loop_ok (provider : Nat → Except String (List Char)) :
    ∀ paths : List Nat,
      (∀ p ∈ paths, chunkTruthy (transcribe_single_file provider p).1 = true) →
      run_chunk_loop provider paths =
        { transcripts := some (paths.map (chunkText provider)),
          err := none, providerCalls := 2 * paths.length } := by
  intro paths
  induction paths with
  | nil => intro _; simp [run_chunk_loop]
  | cons q qs ih =>
    intro hall
    have hq := hall q (by simp)
    rcases hpq : transcribe_single_file provider q with ⟨ct, ce⟩
    cases ct with
    | none => rw [hpq] at hq; simp [chunkTruthy] at hq
    | some t =>
      rw [hpq] at hq
      simp only [chunkTruthy, Bool.not_eq_eq_eq_not, Bool.not_true] at hq
      have hrest := ih (fun p hp => hall p (List.mem_cons_of_mem q hp))
      have htext : chunkText provider q = t := by simp [chunkText, hpq]
      simp [run_chunk_loop, hpq, hq, hrest, htext, ChunkRun.mk.injEq]
      omega

/-! ### Claims C3 to C6 -/

/-- C3: on the chunking path, `transcribe_audio_with_whisper` fails the
whole operation as soon as any single chunk transcription fails: the
result is `(None, error)` and no partial transcript assembled from the
other chunks is returned. -/
theorem C3_fail_fast (provider : Nat → Except String (List Char))
    (fileSizeBytes maxFileMb audioPath : Nat) (paths : List Nat) (p : Nat)
    (hbig : maxFileMb * 1024 * 1024 < fileSizeBytes)
    (hp : p ∈ paths)
    (hfail : (transcribe_single_file provider p).1 = none) :
    (transcribe_audio_with_whisper provider fileSizeBytes maxFileMb audioPath
        (.ok paths)).1.1 = none ∧
    ((transcribe_audio_with_whisper provider fileSizeBytes maxFileMb audioPath
        (.ok paths)).1.2).isSome = true := by
  have h := run_chunk_loop_fail provider paths p hp hfail
  rw [transcribe_audio_with_whisper, if_neg (by omega)]
  simp [h.1, h.2]

/-- Witness for C3: chunks `[0, 1, 2]` transcribe to `"A"`, a provider
failure, `"C"`; the pipeline returns no transcript and an error. -/
theorem C3_witness :
    (transcribe_audio_with_whisper
        (fun q => if q = 1 then .error "boom" else .ok ['A']) 26214401 25 9
        (.ok [0, 1, 2])).1.1 = none ∧
    ((transcribe_audio_with_whisper
        (fun q => if q = 1 then .error "boom" else .ok ['A']) 26214401 25 9
        (.ok [0, 1, 2])).1.2).isSome = true :=
  C3_fail_fast (fun q => if q = 1 then .error "boom" else .ok ['A']) 26214401 25 9
    [0, 1, 2] 1 (by decide) (by decide) (by decide)

/-- C4 (amended): when every chunk transcription succeeds *with non-empty
text*, the assembled transcript is exactly the per-chunk texts joined by a
single newline in plan order — never reordered, duplicated or merged out
of sequence.  (The unamended claim fails when a chunk legitimately
transcribes to the empty text: the source's `if not chunk_text` treats it
as a failed chunk, see `C4_counterexample`.) -/
theorem C4_joined_in_plan_order (provider : Nat → Except String (List Char))
    (fileSizeBytes maxFileMb audioPath : Nat) (paths : List Nat)
    (hbig : maxFileMb * 1024 * 1024 < fileSizeBytes)
    (hall : ∀ p ∈ paths, chunkTruthy (transcribe_single_file provider p).1 = true) :
    (transcribe_audio_with_whisper provider fileSizeBytes maxFileMb audioPath
        (.ok paths)).1
      = (some (joinNewline (paths.map (chunkText provider))), none) := by
  rw [transcribe_audio_with_whisper, if_neg (by omega)]
  rw [run_chunk_loop_ok provider paths hall]

/-- Witness for C4: chunks `[0, 1, 2]` transcribing to `"A"`, `"B"`, `"C"`
assemble to `"A\nB\nC"`. -/
theorem C4_witness :
    (transcribe_audio_with_whisper
        (fun q => if q = 0 then .ok ['A'] else if q = 1 then .ok ['B'] else .ok ['C'])
        26214401 25 9 (.ok [0, 1, 2])).1
      = (some "A\nB\nC".toList, none) := by
  have h := C4_joined_in_plan_order
    (fun q => if q = 0 then .ok ['A'] else if q = 1 then .ok ['B'] else .ok ['C'])
    26214401 25 9 [0, 1, 2] (by decide) (by decide)
  rw [h]
  decide

/-- Counterexample to C4 as stated: with chunk texts `"A"`, `""`, `"C"`
every chunk transcription succeeds (each returns a text), yet the
pipeline returns no transcript at all instead of the newline-join
`"A\n\nC"` of the per-chunk texts. -/
theorem C4_counterexample :
    (∀ p ∈ [0, 1, 2], ((transcribe_single_file provC4 p).1).isSome = true) ∧
    (transcribe_audio_with_whisper provC4 26214401 25 9 (.ok [0, 1, 2])).1.1 = none ∧
    (transcribe_audio_with_whisper provC4 26214401 25 9 (.ok [0, 1, 2])).1.1
      ≠ some (joinNewline [chunkText provC4 0, chunkText provC4 1, chunkText provC4 2]) := by
  exact ⟨by decide, by decide, by decide⟩

/-- C5 (code evaluation): the chunk loop performs two
`transcribe_single_file` calls — hence two provider requests — for a
single-chunk plan whose transcription succeeds, instead of the single
call per chunk that the specification intends (src/function.py 171-172;
the first call's result is discarded). -/
theorem C5_two_provider_calls_per_chunk :
    (run_chunk_loop provC5 [0]).providerCalls = 2 ∧
    chunkTruthy (transcribe_single_file provC5 0).1 = true := by
  exact ⟨by decide, by decide⟩

/-- C6 (amended): a file at or under the byte ceiling is delegated
directly to the single-file path — the chunking path is not taken — and
the transcript equals the one the chunking path would assemble from the
same single-chunk plan whenever the file's transcription is a provider
error or a non-empty text.  (For an empty transcription the direct path
returns the empty transcript while the chunking path fails, so the
routing is observable there: see `C6_counterexample`.) -/
theorem C6_small_file_passthrough (provider : Nat → Except String (List Char))
    (fileSizeBytes maxFileMb audioPath : Nat)
    (splitResult : Except String (List Nat))
    (hsmall : fileSizeBytes ≤ maxFileMb * 1024 * 1024) :
    transcribe_audio_with_whisper provider fileSizeBytes maxFileMb audioPath splitResult
      = (transcribe_single_file provider audioPath, false) ∧
    ((transcribe_single_file provider audioPath).1 ≠ some [] →
      (transcribe_single_file provider audioPath).1
        = chunkPathTranscript provider [audioPath]) := by
  constructor
  · rw [transcribe_audio_with_whisper.eq_def, if_pos hsmall]
  · intro hne
    rcases hq : provider audioPath with e | raw
    · have h1 : transcribe_single_file provider audioPath = (none, some e) := by
        simp [transcribe_single_file, hq]
      rw [h1]
      simp [chunkPathTranscript, run_chunk_loop, h1]
    · have h1 : transcribe_single_file provider audioPath
          = (some (apply_word_replacements raw), none) := by
        simp [transcribe_single_file, hq]
      rw [h1] at hne ⊢
      have hraw : (apply_word_replacements raw).isEmpty = false := by
        cases hcase : (apply_word_replacements raw).isEmpty
        · rfl
        · exact absurd (by simpa [List.isEmpty_iff] using hcase) (by simpa using hne)
      simp [chunkPathTranscript, run_chunk_loop, h1, hraw, joinNewline]

/-- Witness for C6: a 100-byte file under the 25 MB ceiling transcribing
to `"A"` takes the direct path and matches the single-chunk assembly. -/
theorem C6_witness :
    transcribe_audio_with_whisper provC5 100 25 0 (.ok [0])
      = (transcribe_single_file provC5 0, false) ∧
    (transcribe_single_file provC5 0).1 = chunkPathTranscript provC5 [0] :=
  ⟨(C6_small_file_passthrough provC5 100 25 0 (.ok [0]) (by decide)).1,
   (C6_small_file_passthrough provC5 100 25 0 (.ok [0]) (by decide)).2 (by decide)⟩

/-- Counterexample to C6 as stated: a small file whose transcription is
the empty text.  The direct path returns the empty transcript `some ""`,
while the chunking path on the same single-chunk plan and the same
provider response returns no transcript, so the routing decision changes
the output. -/
theorem C6_counterexample :
    (transcribe_audio_with_whisper provC6 100 25 0 (.ok [0])).1.1 = some [] ∧
    chunkPathTranscript provC6 [0] = none ∧
    (transcribe_audio_with_whisper provC6 100 25 0 (.ok [0])).1.1
      ≠ chunkPathTranscript provC6 [0] := by
  exact ⟨by decide, by decide, by decide⟩

/-! ### Vocabulary-correction lemmas -/

theorem drop_append_len (x t : List Char) (i : Nat) :
    (x ++ t).drop (x.length + i) = t.drop i := by
  induction x with
  | nil => simp
  | cons c cs ih =>
    have hlen : (c :: cs).length + i = (cs.length + i) + 1 := by
      simp only [List.length_cons]; omega
    rw [List.cons_append, hlen, List.drop_succ_cons, ih]

theorem matchesAt_shift (p x t : List Char) (i : Nat) :
    matchesAt p (x ++ t) (x.length + i) = matchesAt p t i := by
  simp only [matchesAt, drop_append_len]

theorem replace_go_congr (p r : List Char) :
    ∀ fuel s fuel', s.length ≤ fuel → s.length ≤ fuel' →
      replace_go p r fuel s = replace_go p r fuel' s := by
  intro fuel
  induction fuel with
  | zero =>
    intro s fuel' hf _
    have hs : s = [] := by
      cases s with
      | nil => rfl
      | cons c cs => simp at hf
    subst hs
    cases fuel' with
    | zero => rfl
    | succ f' => cases p <;> rfl
  | succ fuel ih =>
    intro s fuel' hf hf'
    cases s with
    | nil =>
      cases fuel' with
      | zero => cases p <;> rfl
      | succ f' => cases p <;> rfl
    | cons c cs =>
      cases fuel' with
      | zero => simp at hf'
      | succ f' =>
        cases p with
        | nil => rfl
        | cons p₀ pr =>
          have hcs : cs.length ≤ fuel := by
            simp only [List.length_cons] at hf; omega
          have hcs' : cs.length ≤ f' := by
            simp only [List.length_cons] at hf'; omega
          simp only [replace_go]
          by_cases hcond : p₀ = c ∧ pr.isPrefixOf cs
          · rw [if_pos hcond, if_pos hcond]
            congr 1
            exact ih _ _ (by simp only [List.length_drop]; omega)
              (by simp only [List.length_drop]; omega)
          · rw [if_neg hcond, if_neg hcond]
            congr 1
            exact ih _ _ hcs hcs'

theorem replace_go_id (p r : List Char) :
    ∀ fuel s, (∀ i, i < s.length → matchesAt p s i = false) →
      replace_go p r fuel s = s := by
  intro fuel
  induction fuel with
  | zero => intro s _; rfl
  | succ fuel ih =>
    intro s hno
    cases s with
    | nil => cases p <;> rfl
    | cons c cs =>
      cases p with
      | nil => rfl
      | cons p₀ pr =>
        have h0 : matchesAt (p₀ :: pr) (c :: cs) 0 = false := hno 0 (by simp)
        have hcond : ¬(p₀ = c ∧ pr.isPrefixOf cs) := by
          intro hc
          rw [matchesAt, List.drop_zero] at h0
          simp [List.isPrefixOf, hc.1, hc.2] at h0
        simp only [replace_go]
        rw [if_neg hcond]
        congr 1
        apply ih
        intro i hi
        have := hno (i + 1) (by simp only [List.length_cons]; omega)
        simpa only [matchesAt, List.drop_succ_cons] using this

theorem replaceAll_id (p r s : List Char)
    (hno : ∀ i, i < s.length → matchesAt p s i = false) :
    replaceAll p r s = s :=
  replace_go_id p r s.length s hno

theorem replaceAll_first (p r : List Char) (hp : p ≠ []) :
    ∀ a b : List Char,
      (∀ i, i < a.length → matchesAt p (a ++ p ++ b) i = false) →
      replaceAll p r (a ++ p ++ b) = a ++ r ++ replaceAll p r b := by
  rcases List.exists_cons_of_ne_nil hp with ⟨p₀, pr, rfl⟩
  intro a
  induction a with
  | nil =>
    intro b _
    simp only [List.nil_append, List.cons_append, replaceAll, List.length_cons]
    simp only [replace_go]
    have hpre : pr.isPrefixOf (pr ++ b) = true := by
      rw [List.isPrefixOf_iff_prefix]
      exact List.prefix_append pr b
    rw [if_pos ⟨trivial, hpre⟩]
    have hdrop : (pr ++ b).drop pr.length = b := List.drop_left pr b
    rw [hdrop]
    congr 1
    exact replace_go_congr (p₀ :: pr) r _ b _
      (by simp only [List.length_append]; omega) le_rfl
  | cons c a' ih =>
    intro b hno
    have hs : (c :: a') ++ (p₀ :: pr) ++ b = c :: (a' ++ (p₀ :: pr) ++ b) := by
      simp [List.cons_append]
    have h0 : matchesAt (p₀ :: pr) ((c :: a') ++ (p₀ :: pr) ++ b) 0 = false :=
      hno 0 (by simp only [List.length_cons]; omega)
    rw [hs] at h0
    have hcond : ¬(p₀ = c ∧ pr.isPrefixOf (a' ++ (p₀ :: pr) ++ b)) := by
      intro hc
      rw [matchesAt, List.drop_zero] at h0
      have hbeq : (p₀ == c) = true := by simp [hc.1]
      have hpre' : pr.isPrefixOf (a' ++ (p₀ :: pr) ++ b) = true := hc.2
      have hred : (p₀ :: pr).isPrefixOf (c :: (a' ++ (p₀ :: pr) ++ b))
          = (p₀ == c && pr.isPrefixOf (a' ++ (p₀ :: pr) ++ b)) := rfl
      rw [hred, hbeq, hpre'] at h0
      simp at h0
    have hshift : ∀ i, i < a'.length →
        matchesAt (p₀ :: pr) (a' ++ (p₀ :: pr) ++ b) i = false := by
      intro i hi
      have := hno (i + 1) (by simp only [List.length_cons]; omega)
      rw [hs] at this
      simpa only [matchesAt, List.drop_succ_cons] using this
    rw [hs]
    simp only [replaceAll, List.length_cons]
    simp only [replace_go]
    rw [if_neg hcond]
    have htail : replace_go (p₀ :: pr) r (a' ++ (p₀ :: pr) ++ b).length
        (a' ++ (p₀ :: pr) ++ b) = replaceAll (p₀ :: pr) r (a' ++ (p₀ :: pr) ++ b) := rfl
    rw [htail, ih b hshift, replaceAll]
    simp [List.cons_append]

/-! ### Claim C7 -/

/-- C7: `apply_word_replacements` replaces each occurrence of a key of the
fixed table by its canonical form exactly once per occurrence via exact
substring replacement, and leaves text containing no table key unchanged.
First conjunct: a text in which no key occurs anywhere is returned
identical.  Second conjunct: if a key occurs exactly once (no table key
matches anywhere else, and none matches the corrected text), the output
is the text with that one occurrence replaced by the canonical form. -/
theorem C7_vocabulary_replacement :
    (∀ t : List Char,
       (∀ kv ∈ TRANSCRIPTION_WORD_REPLACEMENTS, ∀ i, i < t.length →
          matchesAt kv.1 t i = false) →
       apply_word_replacements t = t) ∧
    (∀ kv ∈ TRANSCRIPTION_WORD_REPLACEMENTS, ∀ a b : List Char,
       (∀ kv' ∈ TRANSCRIPTION_WORD_REPLACEMENTS, ∀ i, i < (a ++ kv.1 ++ b).length →
          matchesAt kv'.1 (a ++ kv.1 ++ b) i = true → kv'.1 = kv.1 ∧ i = a.length) →
       (∀ kv' ∈ TRANSCRIPTION_WORD_REPLACEMENTS, ∀ i, i < (a ++ kv.2 ++ b).length →
          matchesAt kv'.1 (a ++ kv.2 ++ b) i = false) →
       apply_word_replacements (a ++ kv.1 ++ b) = a ++ kv.2 ++ b) := by
  constructor
  · intro t hno
    have e1 : replaceAll ['配', '客', '状', '況'] ['廃', '却', '状', '況'] t = t :=
      replaceAll_id _ _ t (fun i hi =>
        hno (['配', '客', '状', '況'], ['廃', '却', '状', '況']) (by decide) i hi)
    have e2 : replaceAll ['政', '策', '省'] ['製', '作', '所'] t = t :=
      replaceAll_id _ _ t (fun i hi =>
        hno (['政', '策', '省'], ['製', '作', '所']) (by decide) i hi)
    have e3 : replaceAll ['排', '却', '率'] ['廃', '却', '率'] t = t :=
      replaceAll_id _ _ t (fun i hi =>
        hno (['排', '却', '率'], ['廃', '却', '率']) (by decide) i hi)
    simp [apply_word_replacements, TRANSCRIPTION_WORD_REPLACEMENTS, e1, e2, e3]
  · intro kv hkv a b H1 H2
    simp only [TRANSCRIPTION_WORD_REPLACEMENTS, List.mem_cons, List.not_mem_nil,
      or_false] at hkv
    rcases hkv with rfl | rfl | rfl
    · -- kv = ("配客状況", "廃却状況")
      have hA2 : ∀ i, i < (a ++ ['配', '客', '状', '況'] ++ b).length →
          matchesAt ['政', '策', '省'] (a ++ ['配', '客', '状', '況'] ++ b) i = false := by
        intro i hi
        cases hmc : matchesAt ['政', '策', '省'] (a ++ ['配', '客', '状', '況'] ++ b) i
        · rfl
        · exact absurd (H1 (['政', '策', '省'], ['製', '作', '所']) (by decide) i hi hmc).1
            (by decide)
      have hA3 : ∀ i, i < (a ++ ['配', '客', '状', '況'] ++ b).length →
          matchesAt ['排', '却', '率'] (a ++ ['配', '客', '状', '況'] ++ b) i = false := by
        intro i hi
        cases hmc : matchesAt ['排', '却', '率'] (a ++ ['配', '客', '状', '況'] ++ b) i
        · rfl
        · exact absurd (H1 (['排', '却', '率'], ['廃', '却', '率']) (by decide) i hi hmc).1
            (by decide)
      have hEarly : ∀ i, i < a.length →
          matchesAt ['配', '客', '状', '況'] (a ++ ['配', '客', '状', '況'] ++ b) i = false := by
        intro i hi
        cases hmc : matchesAt ['配', '客', '状', '況'] (a ++ ['配', '客', '状', '況'] ++ b) i
        · rfl
        · have h := H1 (['配', '客', '状', '況'], ['廃', '却', '状', '況']) (by decide) i
            (by simp [List.length_append]; omega) hmc
          omega
      have hb : ∀ i, i < b.length → matchesAt ['配', '客', '状', '況'] b i = false := by
        intro i hi
        cases hmc : matchesAt ['配', '客', '状', '況'] b i
        · rfl
        · exfalso
          have hshift : matchesAt ['配', '客', '状', '況'] ((a ++ ['配', '客', '状', '況']) ++ b)
              ((a ++ ['配', '客', '状', '況']).length + i) = true := by
            rw [matchesAt_shift]; exact hmc
          have h := H1 (['配', '客', '状', '況'], ['廃', '却', '状', '況']) (by decide)
            ((a ++ ['配', '客', '状', '況']).length + i)
            (by simp [List.length_append]; omega) hshift
          have h2 := h.2
          simp [List.length_append] at h2
          omega
      simp only [apply_word_replacements, TRANSCRIPTION_WORD_REPLACEMENTS,
        List.foldl_cons, List.foldl_nil]
      rw [replaceAll_first ['配', '客', '状', '況'] ['廃', '却', '状', '況'] (by decide) a b hEarly]
      rw [replaceAll_id ['配', '客', '状', '況'] ['廃', '却', '状', '況'] b hb]
      rw [replaceAll_id ['政', '策', '省'] ['製', '作', '所'] _ (fun i hi =>
        H2 (['政', '策', '省'], ['製', '作', '所']) (by decide) i hi)]
      rw [replaceAll_id ['排', '却', '率'] ['廃', '却', '率'] _ (fun i hi =>
        H2 (['排', '却', '率'], ['廃', '却', '率']) (by decide) i hi)]
    · -- kv = ("政策省", "製作所")
      have hA1 : ∀ i, i < (a ++ ['政', '策', '省'] ++ b).length →
          matchesAt ['配', '客', '状', '況'] (a ++ ['政', '策', '省'] ++ b) i = false := by
        intro i hi
        cases hmc : matchesAt ['配', '客', '状', '況'] (a ++ ['政', '策', '省'] ++ b) i
        · rfl
        · exact absurd (H1 (['配', '客', '状', '況'], ['廃', '却', '状', '況']) (by decide) i hi hmc).1
            (by decide)
      have hA3 : ∀ i, i < (a ++ ['政', '策', '省'] ++ b).length →
          matchesAt ['排', '却', '率'] (a ++ ['政', '策', '省'] ++ b) i = false := by
        intro i hi
        cases hmc : matchesAt ['排', '却', '率'] (a ++ ['政', '策', '省'] ++ b) i
        · rfl
        · exact absurd (H1 (['排', '却', '率'], ['廃', '却', '率']) (by decide) i hi hmc).1
            (by decide)
      have hEarly : ∀ i, i < a.length →
          matchesAt ['政', '策', '省'] (a ++ ['政', '策', '省'] ++ b) i = false := by
        intro i hi
        cases hmc : matchesAt ['政', '策', '省'] (a ++ ['政', '策', '省'] ++ b) i
        · rfl
        · have h := H1 (['政', '策', '省'], ['製', '作', '所']) (by decide) i
            (by simp [List.length_append]; omega) hmc
          omega
      have hb : ∀ i, i < b.length → matchesAt ['政', '策', '省'] b i = false := by
        intro i hi
        cases hmc : matchesAt ['政', '策', '省'] b i
        · rfl
        · exfalso
          have hshift : matchesAt ['政', '策', '省'] ((a ++ ['政', '策', '省']) ++ b)
              ((a ++ ['政', '策', '省']).length + i) = true := by
            rw [matchesAt_shift]; exact hmc
          have h := H1 (['政', '策', '省'], ['製', '作', '所']) (by decide)
            ((a ++ ['政', '策', '省']).length + i)
            (by simp [List.length_append]; omega) hshift
          have h2 := h.2
          simp [List.length_append] at h2
          omega
      simp only [apply_word_replacements, TRANSCRIPTION_WORD_REPLACEMENTS,
        List.foldl_cons, List.foldl_nil]
      rw [replaceAll_id ['配', '客', '状', '況'] ['廃', '却', '状', '況'] _ hA1]
      rw [replaceAll_first ['政', '策', '省'] ['製', '作', '所'] (by decide) a b hEarly]
      rw [replaceAll_id ['政', '策', '省'] ['製', '作', '所'] b hb]
      rw [replaceAll_id ['排', '却', '率'] ['廃', '却', '率'] _ (fun i hi =>
        H2 (['排', '却', '率'], ['廃', '却', '率']) (by decide) i hi)]
    · -- kv = ("排却率", "廃却率")
      have hA1 : ∀ i, i < (a ++ ['排', '却', '率'] ++ b).length →
          matchesAt ['配', '客', '状', '況'] (a ++ ['排', '却', '率'] ++ b) i = false := by
        intro i hi
        cases hmc : matchesAt ['配', '客', '状', '況'] (a ++ ['排', '却', '率'] ++ b) i
        · rfl
        · exact absurd (H1 (['配', '客', '状', '況'], ['廃', '却', '状', '況']) (by decide) i hi hmc).1
            (by decide)
      have hA2 : ∀ i, i < (a ++ ['排', '却', '率'] ++ b).length →
          matchesAt ['政', '策', '省'] (a ++ ['排', '却', '率'] ++ b) i = false := by
        intro i hi
        cases hmc : matchesAt ['政', '策', '省'] (a ++ ['排', '却', '率'] ++ b) i
        · rfl
        · exact absurd (H1 (['政', '策', '省'], ['製', '作', '所']) (by decide) i hi hmc).1
            (by decide)
      have hEarly : ∀ i, i < a.length →
          matchesAt ['排', '却', '率'] (a ++ ['排', '却', '率'] ++ b) i = false := by
        intro i hi
        cases hmc : matchesAt ['排', '却', '率'] (a ++ ['排', '却', '率'] ++ b) i
        · rfl
        · have h := H1 (['排', '却', '率'], ['廃', '却', '率']) (by decide) i
            (by simp [List.length_append]; omega) hmc
          omega
      have hb : ∀ i, i < b.length → matchesAt ['排', '却', '率'] b i = false := by
        intro i hi
        cases hmc : matchesAt ['排', '却', '率'] b i
        · rfl
        · exfalso
          have hshift : matchesAt ['排', '却', '率'] ((a ++ ['排', '却', '率']) ++ b)
              ((a ++ ['排', '却', '率']).length + i) = true := by
            rw [matchesAt_shift]; exact hmc
          have h := H1 (['排', '却', '率'], ['廃', '却', '率']) (by decide)
            ((a ++ ['排', '却', '率']).length + i)
            (by simp [List.length_append]; omega) hshift
          have h2 := h.2
          simp [List.length_append] at h2
          omega
      simp only [apply_word_replacements, TRANSCRIPTION_WORD_REPLACEMENTS,
        List.foldl_cons, List.foldl_nil]
      rw [replaceAll_id ['配', '客', '状', '況'] ['廃', '却', '状', '況'] _ hA1]
      rw [replaceAll_id ['政', '策', '省'] ['製', '作', '所'] _ hA2]
      rw [replaceAll_first ['排', '却', '率'] ['廃', '却', '率'] (by decide) a b hEarly]
      rw [replaceAll_id ['排', '却', '率'] ['廃', '却', '率'] b hb]

/-- Witness for C7: key-free text is untouched, and a text with exactly one
occurrence of the key `配客状況` has it replaced by `廃却状況`. -/
theorem C7_witness :
    apply_word_replacements "会議を始めます".toList = "会議を始めます".toList ∧
    apply_word_replacements ("現在の".toList ++ "配客状況".toList ++ "を報告".toList)
      = "現在の".toList ++ "廃却状況".toList ++ "を報告".toList := by
  constructor
  · exact C7_vocabulary_replacement.1 _ (by decide)
  · exact C7_vocabulary_replacement.2 ("配客状況".toList, "廃却状況".toList) (by decide)
      "現在の".toList "を報告".toList (by decide) (by decide)

/-! ### Summary-extractor lemmas -/

theorem summarize_transcription_some (mi st : List Char) (s : Summary)
    (hs : summarize_transcription mi st = some s) : s = build_summary mi st := by
  rw [summarize_transcription] at hs
  by_cases he : st.isEmpty
  · rw [if_pos he] at hs; simp at hs
  · rw [if_neg he] at hs
    injection hs with h
    exact h.symm

theorem lookupField_blank (parts : List (List Char)) (text : List Char)
    (hb : blankMatch parts text = true) : lookupField parts text = "不明".toList := by
  rcases hr : reSearchLabel parts text with _ | g
  · simp [lookupField, hr]
  · rw [blankMatch, hr] at hb
    simp only at hb
    simp [lookupField, hr, hb]

theorem summary_s2_basic (mi st : List Char) :
    (summary_s2 mi st).meeting_name = (summary_s1 mi st).meeting_name ∧
    (summary_s2 mi st).meeting_datetime = (summary_s1 mi st).meeting_datetime ∧
    (summary_s2 mi st).participants = (summary_s1 mi st).participants ∧
    (summary_s2 mi st).location_url = (summary_s1 mi st).location_url := by
  rw [summary_s2]
  split <;> exact ⟨rfl, rfl, rfl, rfl⟩

theorem summary_s3_basic (mi st : List Char) :
    (summary_s3 mi st).meeting_name = (summary_s2 mi st).meeting_name ∧
    (summary_s3 mi st).meeting_datetime = (summary_s2 mi st).meeting_datetime ∧
    (summary_s3 mi st).participants = (summary_s2 mi st).participants ∧
    (summary_s3 mi st).location_url = (summary_s2 mi st).location_url := by
  rw [summary_s3]
  split <;> exact ⟨rfl, rfl, rfl, rfl⟩

theorem build_summary_basic (mi st : List Char) :
    (build_summary mi st).meeting_name = (summary_s3 mi st).meeting_name ∧
    (build_summary mi st).meeting_datetime = (summary_s3 mi st).meeting_datetime ∧
    (build_summary mi st).participants = (summary_s3 mi st).participants ∧
    (build_summary mi st).location_url = (summary_s3 mi st).location_url := by
  rw [build_summary]
  split <;> exact ⟨rfl, rfl, rfl, rfl⟩

theorem build_summary_overwrite (mi st : List Char)
    (hcond : (containsSub HDR0 st && containsSub HDR1 st) = true) :
    (build_summary mi st).meeting_name
      = (parse_meeting_basic_info
          (pyStrip (pySplitGet0 HDR1 (pySplitGet1 HDR0 st)))).meeting_name ∧
    (build_summary mi st).meeting_datetime
      = (parse_meeting_basic_info
          (pyStrip (pySplitGet0 HDR1 (pySplitGet1 HDR0 st)))).meeting_datetime ∧
    (build_summary mi st).participants
      = (parse_meeting_basic_info
          (pyStrip (pySplitGet0 HDR1 (pySplitGet1 HDR0 st)))).participants ∧
    (build_summary mi st).location_url
      = (parse_meeting_basic_info
          (pyStrip (pySplitGet0 HDR1 (pySplitGet1 HDR0 st)))).location_url := by
  have h1 : summary_s1 mi st
      = { summary_base mi with
          meeting_name := (parse_meeting_basic_info
            (pyStrip (pySplitGet0 HDR1 (pySplitGet1 HDR0 st)))).meeting_name,
          meeting_datetime := (parse_meeting_basic_info
            (pyStrip (pySplitGet0 HDR1 (pySplitGet1 HDR0 st)))).meeting_datetime,
          participants := (parse_meeting_basic_info
            (pyStrip (pySplitGet0 HDR1 (pySplitGet1 HDR0 st)))).participants,
          location_url := (parse_meeting_basic_info
            (pyStrip (pySplitGet0 HDR1 (pySplitGet1 HDR0 st)))).location_url } := by
    rw [summary_s1, if_pos hcond]
  obtain ⟨b1, b2, b3, b4⟩ := build_summary_basic mi st
  obtain ⟨c1, c2, c3, c4⟩ := summary_s3_basic mi st
  obtain ⟨d1, d2, d3, d4⟩ := summary_s2_basic mi st
  exact ⟨by rw [b1, c1, d1, h1], by rw [b2, c2, d2, h1],
         by rw [b3, c3, d3, h1], by rw [b4, c4, d4, h1]⟩

theorem build_summary_fallback (mi st : List Char)
    (hcond : (containsSub HDR0 st && containsSub HDR1 st) = false) :
    (build_summary mi st).meeting_name = (parse_meeting_basic_info mi).meeting_name ∧
    (build_summary mi st).meeting_datetime
      = (parse_meeting_basic_info mi).meeting_datetime ∧
    (build_summary mi st).participants = (parse_meeting_basic_info mi).participants ∧
    (build_summary mi st).location_url = (parse_meeting_basic_info mi).location_url := by
  have h1 : summary_s1 mi st = summary_base mi := by
    rw [summary_s1, if_neg (by simp [hcond])]
  obtain ⟨b1, b2, b3, b4⟩ := build_summary_basic mi st
  obtain ⟨c1, c2, c3, c4⟩ := summary_s3_basic mi st
  obtain ⟨d1, d2, d3, d4⟩ := summary_s2_basic mi st
  exact ⟨by rw [b1, c1, d1, h1]; rfl, by rw [b2, c2, d2, h1]; rfl,
         by rw [b3, c3, d3, h1]; rfl, by rw [b4, c4, d4, h1]; rfl⟩

/-! ### Claims C8 to C10 -/

/-- C8: the section parser of `summarize_transcription` degrades
gracefully: with the `"3. 決定事項:"` header absent from the (non-falsy)
model reply, `decisions` stays at its empty default while `agenda` and
`main_points` are still populated from the text sliced between
consecutive headers whenever their headers are present. -/
theorem C8_parser_degrades_gracefully (mi st : List Char) (s : Summary)
    (hs : summarize_transcription mi st = some s)
    (h3 : containsSub HDR3 st = false) :
    s.decisions = [] ∧
    (containsSub HDR1 st = true →
      s.agenda = pyStrip (pySplitGet0 HDR2 (pySplitGet1 HDR1 st))) ∧
    (containsSub HDR2 st = true →
      s.main_points = pyStrip (pySplitGet0 HDR3 (pySplitGet1 HDR2 st))) := by
  obtain rfl := summarize_transcription_some mi st s hs
  refine ⟨?_, ?_, ?_⟩
  · rw [build_summary, if_neg (by simp [h3])]
    have hc : (summary_s3 mi st).decisions = (summary_s2 mi st).decisions := by
      rw [summary_s3]; split <;> rfl
    have hd : (summary_s2 mi st).decisions = (summary_s1 mi st).decisions := by
      rw [summary_s2]; split <;> rfl
    have he : (summary_s1 mi st).decisions = [] := by
      rw [summary_s1]; split <;> rfl
    rw [hc, hd, he]
  · intro hh1
    have hb : (build_summary mi st).agenda = (summary_s3 mi st).agenda := by
      rw [build_summary]; split <;> rfl
    have hc : (summary_s3 mi st).agenda = (summary_s2 mi st).agenda := by
      rw [summary_s3]; split <;> rfl
    rw [hb, hc, summary_s2, if_pos hh1]
  · intro hh2
    have hb : (build_summary mi st).main_points = (summary_s3 mi st).main_points := by
      rw [build_summary]; split <;> rfl
    rw [hb, summary_s3, if_pos hh2]

/-- Witness for C8: a reply with the "1." and "2." sections but no
"3. 決定事項:" header. -/
theorem C8_witness :
    (build_summary [] "1. 議題の説明: 目的\n2. 主な発言: 発言A".toList).decisions = [] ∧
    (build_summary [] "1. 議題の説明: 目的\n2. 主な発言: 発言A".toList).agenda
      = pyStrip (pySplitGet0 HDR2
          (pySplitGet1 HDR1 "1. 議題の説明: 目的\n2. 主な発言: 発言A".toList)) := by
  have h := C8_parser_degrades_gracefully [] "1. 議題の説明: 目的\n2. 主な発言: 発言A".toList
      (build_summary [] "1. 議題の説明: 目的\n2. 主な発言: 発言A".toList) (by decide) (by decide)
  exact ⟨h.1, h.2.1 (by decide)⟩

/-- C9: the four basic-info fields are the labeled-line fallback parsed
from the user-supplied meeting metadata, overwritten by the values parsed
from the model reply's "0." section exactly when that section is
parseable (its header present together with the "1." header) — so when
both sources state a value the final field is the model-derived one. -/
theorem C9_basic_info_precedence (mi st : List Char) (s : Summary)
    (hs : summarize_transcription mi st = some s) :
    ((containsSub HDR0 st && containsSub HDR1 st) = true →
       s.meeting_name = (parse_meeting_basic_info
           (pyStrip (pySplitGet0 HDR1 (pySplitGet1 HDR0 st)))).meeting_name ∧
       s.meeting_datetime = (parse_meeting_basic_info
           (pyStrip (pySplitGet0 HDR1 (pySplitGet1 HDR0 st)))).meeting_datetime ∧
       s.participants = (parse_meeting_basic_info
           (pyStrip (pySplitGet0 HDR1 (pySplitGet1 HDR0 st)))).participants ∧
       s.location_url = (parse_meeting_basic_info
           (pyStrip (pySplitGet0 HDR1 (pySplitGet1 HDR0 st)))).location_url) ∧
    ((containsSub HDR0 st && containsSub HDR1 st) = false →
       s.meeting_name = (parse_meeting_basic_info mi).meeting_name ∧
       s.meeting_datetime = (parse_meeting_basic_info mi).meeting_datetime ∧
       s.participants = (parse_meeting_basic_info mi).participants ∧
       s.location_url = (parse_meeting_basic_info mi).location_url) := by
  obtain rfl := summarize_transcription_some mi st s hs
  exact ⟨fun hc => build_summary_overwrite mi st hc,
         fun hc => build_summary_fallback mi st hc⟩

/-- Witness for C9: user metadata says `会議名: Weekly Sync`, the model's
"0." section says `会議名: 月次定例`; the final meeting name is the
model-derived one. -/
theorem C9_witness :
    (build_summary "会議名: Weekly Sync".toList
        "0. 会議基本情報\n会議名: 月次定例\n日時: 10月2日\n参加者: 佐藤\n場所 / URL: 本社\n1. 議題の説明: 内容\n2. 主な発言: 発言\n3. 決定事項: 決定".toList).meeting_name
      = (parse_meeting_basic_info (pyStrip (pySplitGet0 HDR1 (pySplitGet1 HDR0
          "0. 会議基本情報\n会議名: 月次定例\n日時: 10月2日\n参加者: 佐藤\n場所 / URL: 本社\n1. 議題の説明: 内容\n2. 主な発言: 発言\n3. 決定事項: 決定".toList)))).meeting_name ∧
    (parse_meeting_basic_info (pyStrip (pySplitGet0 HDR1 (pySplitGet1 HDR0
        "0. 会議基本情報\n会議名: 月次定例\n日時: 10月2日\n参加者: 佐藤\n場所 / URL: 本社\n1. 議題の説明: 内容\n2. 主な発言: 発言\n3. 決定事項: 決定".toList)))).meeting_name
      = "月次定例".toList := by
  refine ⟨?_, by decide⟩
  exact ((C9_basic_info_precedence "会議名: Weekly Sync".toList
      "0. 会議基本情報\n会議名: 月次定例\n日時: 10月2日\n参加者: 佐藤\n場所 / URL: 本社\n1. 議題の説明: 内容\n2. 主な発言: 発言\n3. 決定事項: 決定".toList
      (build_summary "会議名: Weekly Sync".toList
        "0. 会議基本情報\n会議名: 月次定例\n日時: 10月2日\n参加者: 佐藤\n場所 / URL: 本社\n1. 議題の説明: 内容\n2. 主な発言: 発言\n3. 決定事項: 決定".toList)
      (by decide)).1 (by decide)).1

/-- C10: when the model reply's "0." section is parseable but one of the
four labeled lines is missing or strips to empty inside that section, the
corresponding field is set to the `"不明"` sentinel — the overwrite
replaces all four fields at once, discarding any value parsed from the
user-supplied metadata fallback. -/
theorem C10_model_section_overwrite_all_four (mi st : List Char) (s : Summary)
    (hs : summarize_transcription mi st = some s)
    (h0 : containsSub HDR0 st = true) (h1 : containsSub HDR1 st = true) :
    (blankMatch nameParts (pyStrip (pySplitGet0 HDR1 (pySplitGet1 HDR0 st))) = true →
       s.meeting_name = "不明".toList) ∧
    (blankMatch dateParts (pyStrip (pySplitGet0 HDR1 (pySplitGet1 HDR0 st))) = true →
       s.meeting_datetime = "不明".toList) ∧
    (blankMatch participantParts (pyStrip (pySplitGet0 HDR1 (pySplitGet1 HDR0 st))) = true →
       s.participants = "不明".toList) ∧
    (blankMatch locationParts (pyStrip (pySplitGet0 HDR1 (pySplitGet1 HDR0 st))) = true →
       s.location_url = "不明".toList) := by
  obtain rfl := summarize_transcription_some mi st s hs
  have hcond : (containsSub HDR0 st && containsSub HDR1 st) = true := by
    simp [h0, h1]
  obtain ⟨o1, o2, o3, o4⟩ := build_summary_overwrite mi st hcond
  refine ⟨?_, ?_, ?_, ?_⟩
  · intro hb
    rw [o1]
    by_cases he : (pyStrip (pySplitGet0 HDR1 (pySplitGet1 HDR0 st))).isEmpty
    · rw [parse_meeting_basic_info, if_pos he]
    · rw [parse_meeting_basic_info, if_neg he]
      exact lookupField_blank _ _ hb
  · intro hb
    rw [o2]
    by_cases he : (pyStrip (pySplitGet0 HDR1 (pySplitGet1 HDR0 st))).isEmpty
    · rw [parse_meeting_basic_info, if_pos he]
    · rw [parse_meeting_basic_info, if_neg he]
      exact lookupField_blank _ _ hb
  · intro hb
    rw [o3]
    by_cases he : (pyStrip (pySplitGet0 HDR1 (pySplitGet1 HDR0 st))).isEmpty
    · rw [parse_meeting_basic_info, if_pos he]
    · rw [parse_meeting_basic_info, if_neg he]
      exact lookupField_blank _ _ hb
  · intro hb
    rw [o4]
    by_cases he : (pyStrip (pySplitGet0 HDR1 (pySplitGet1 HDR0 st))).isEmpty
    · rw [parse_meeting_basic_info, if_pos he]
    · rw [parse_meeting_basic_info, if_neg he]
      exact lookupField_blank _ _ hb

/-- Witness for C10: the user metadata carries a meeting name, the model's
"0." section exists but has no `会議名` line — the final meeting name is
the `不明` sentinel, not the user-supplied value. -/
theorem C10_witness :
    (parse_meeting_basic_info "会議名: Weekly Sync".toList).meeting_name
      = "Weekly Sync".toList ∧
    (build_summary "会議名: Weekly Sync".toList
        "0. 会議基本情報\n日時: 10月2日\n1. 議題の説明: 内容".toList).meeting_name
      = "不明".toList := by
  refine ⟨by decide, ?_⟩
  exact (C10_model_section_overwrite_all_four "会議名: Weekly Sync".toList
      "0. 会議基本情報\n日時: 10月2日\n1. 議題の説明: 内容".toList
      (build_summary "会議名: Weekly Sync".toList
        "0. 会議基本情報\n日時: 10月2日\n1. 議題の説明: 内容".toList)
      (by decide) (by decide) (by decide)).1 (by decide)
